import Mathlib

/-!
Verification of the `bun-workspace` catalog model (`src/index.ts`).

JavaScript plain objects used as string-keyed maps (`Record<string, string>`
and `Record<string, Record<string, string>>`) are embedded as insertion-ordered
association lists: property insertion appends at the end, assignment to an
existing key updates in place, `delete` removes the key, and `Object.keys`
iterates in insertion order.  Keys of an object produced by `JSON.parse` are
unique, so deleting "the" binding of a key and deleting every binding agree on
every state the library can actually reach.
-/

namespace BunWorkspace

/-- Insertion-ordered string-keyed map, the embedding of a JS object. -/
abbrev StrMap (α : Type) := List (String × α)

/-- Property read `obj[k]`: first (in a well-formed object, only) binding. -/
def getKey {α : Type} : StrMap α → String → Option α
  | [], _ => none
  | (k', v) :: rest, k => if k' = k then some v else getKey rest k

/-- Property write `obj[k] = v`: update in place, else append at the end. -/
def setKey {α : Type} : StrMap α → String → α → StrMap α
  | [], k, v => [(k, v)]
  | (k', v') :: rest, k, v =>
    if k' = k then (k, v) :: rest else (k', v') :: setKey rest k v

/-- Property deletion `delete obj[k]`. -/
def delKey {α : Type} (m : StrMap α) (k : String) : StrMap α :=
  m.filter (fun p => p.1 ≠ k)

/-- The `Object.keys obj`, in insertion order. -/
def keys {α : Type} (m : StrMap α) : List String :=
  m.map Prod.fst

/-- JS truthiness of a possibly-absent string value: `undefined` and the
empty string are falsy, every other string is truthy. -/
def jsTruthy : Option String → Bool
  | none => false
  | some s => s ≠ ""

/-- The `workspaces` object of `BunWorkspaceSchema`: optional `packages`
array, optional default `catalog`, optional named `catalogs`. -/
structure Workspaces where
  packages : Option (List String) := none
  catalog : Option (StrMap String) := none
  catalogs : Option (StrMap (StrMap String)) := none
deriving DecidableEq, Repr

/-- The root `BunWorkspaceSchema` document.  The `workspaces` field is
optional at runtime (the code guards every access with `?.` or creates it
lazily), hence an `Option` here. -/
structure Config where
  workspaces : Option Workspaces := none
deriving DecidableEq, Repr

/-- The closure state of `parseBunWorkspace`: the mutable `config` document
and the mutable `hasChanged` flag. -/
structure Model where
  config : Config
  hasChanged : Bool
deriving DecidableEq, Repr

/-- The `parseBunWorkspace`: the model built from a freshly parsed document;
`hasChanged` starts `false`. -/
def parseBunWorkspace (c : Config) : Model :=
  { config := c, hasChanged := false }

/-- The `getContent`: returns the document. -/
def getContent (m : Model) : Config :=
  m.config

/-- The `setContent`: replaces the document and unconditionally marks change. -/
def setContent (m : Model) (c : Config) : Model :=
  { config := c, hasChanged := true }

/-- The `ensureWorkspaces`: if `config.workspaces` is absent, create it empty and
set the change flag. -/
def ensureWorkspaces (m : Model) : Model :=
  match m.config.workspaces with
  | none => { config := { workspaces := some {} }, hasChanged := true }
  | some _ => m

/-- The `createCatalog`: ensure the catalog named `name` exists as an (initially
empty) mapping, setting the change flag only when an entry is created.
`"default"` lives in `workspaces.catalog`; every other name lives in
`workspaces.catalogs[name]`, whose container is created silently if absent. -/
def createCatalog (m : Model) (name : String) : Model :=
  let m1 := ensureWorkspaces m
  match m1.config.workspaces with
  | none => m1
  | some ws =>
    if name = "default" then
      match ws.catalog with
      | none =>
        { config := { workspaces := some { ws with catalog := some [] } },
          hasChanged := true }
      | some _ => m1
    else
      match ws.catalogs with
      | none =>
        { config := { workspaces := some { ws with catalogs := some [(name, [])] } },
          hasChanged := true }
      | some cs =>
        match getKey cs name with
        | some _ => m1
        | none =>
          { config := { workspaces := some { ws with catalogs := some (setKey cs name []) } },
            hasChanged := true }

/-- The `removeCatalog`: delete the catalog's key if present (the default slot
for `"default"`, the `catalogs` entry otherwise) and set the change flag;
otherwise do nothing. -/
def removeCatalog (m : Model) (name : String) : Model :=
  if name = "default" then
    match m.config.workspaces with
    | none => m
    | some ws =>
      match ws.catalog with
      | none => m
      | some _ =>
        { config := { workspaces := some { ws with catalog := none } },
          hasChanged := true }
  else
    match m.config.workspaces with
    | none => m
    | some ws =>
      match ws.catalogs with
      | none => m
      | some cs =>
        match getKey cs name with
        | none => m
        | some _ =>
          { config := { workspaces := some { ws with catalogs := some (delKey cs name) } },
            hasChanged := true }

/-- The `setCatalogVersion`: `createCatalog` first, then write
`catalog[packageName] = version` in the chosen slot and set the change flag. -/
def setCatalogVersion (m : Model) (catalogName packageName version : String) : Model :=
  let m1 := createCatalog m catalogName
  match m1.config.workspaces with
  | none => m1
  | some ws =>
    if catalogName = "default" then
      { config :=
          { workspaces :=
              some { ws with catalog := some (setKey (ws.catalog.getD []) packageName version) } },
        hasChanged := true }
    else
      let cs := ws.catalogs.getD []
      let catalogObj := (getKey cs catalogName).getD []
      { config :=
          { workspaces :=
              some { ws with catalogs := some (setKey cs catalogName (setKey catalogObj packageName version)) } },
        hasChanged := true }

/-- The `setPackage`: alias of `setCatalogVersion`. -/
def setPackage (m : Model) (catalog packageName version : String) : Model :=
  setCatalogVersion m catalog packageName version

/-- The `getCatalogVersion`: optional-chained lookup
`workspaces?.catalog?.[p]` or `workspaces?.catalogs?.[c]?.[p]`. -/
def getCatalogVersion (m : Model) (catalogName packageName : String) : Option String :=
  if catalogName = "default" then
    (m.config.workspaces.bind (·.catalog)).bind (fun cat => getKey cat packageName)
  else
    ((m.config.workspaces.bind (·.catalogs)).bind (fun cs => getKey cs catalogName)).bind
      (fun cat => getKey cat packageName)

/-- The `listCatalogs`: `"default"` if `workspaces?.catalog` is present (an empty
object is truthy), then the keys of `workspaces?.catalogs` in order. -/
def listCatalogs (m : Model) : List String :=
  (match m.config.workspaces.bind (·.catalog) with
   | some _ => ["default"]
   | none => []) ++
  (match m.config.workspaces.bind (·.catalogs) with
   | some cs => keys cs
   | none => [])

/-- The `getCatalogPackages`: the catalog's mapping, or `{}` when absent. -/
def getCatalogPackages (m : Model) (catalogName : String) : StrMap String :=
  if catalogName = "default" then
    (m.config.workspaces.bind (·.catalog)).getD []
  else
    ((m.config.workspaces.bind (·.catalogs)).bind (fun cs => getKey cs catalogName)).getD []

/-- The loop body of `getPackageCatalogs`: walk `Object.keys cs` and keep the
names whose catalog holds a truthy version for `packageName`
(`catalogs[catalog]?.[packageName]`). -/
def collectCatalogs (cs : StrMap (StrMap String)) (packageName : String) :
    List String → List String
  | [] => []
  | name :: rest =>
    if jsTruthy ((getKey cs name).bind (fun cat => getKey cat packageName)) then
      name :: collectCatalogs cs packageName rest
    else
      collectCatalogs cs packageName rest

/-- The `getPackageCatalogs`: named catalogs containing the package, in order,
then `"default"` if the default catalog holds a truthy version for it. -/
def getPackageCatalogs (m : Model) (packageName : String) : List String :=
  (match m.config.workspaces.bind (·.catalogs) with
   | none => []
   | some cs => collectCatalogs cs packageName (keys cs)) ++
  (if jsTruthy ((m.config.workspaces.bind (·.catalog)).bind (fun cat => getKey cat packageName)) then
    ["default"]
   else [])

/-- The public operations of a `BunWorkspace` (reads carry their arguments so
a trace can mention them; they do not affect the state). -/
inductive Op where
  | setContent (c : Config)
  | setPackage (catalog packageName version : String)
  | setCatalogVersion (catalogName packageName version : String)
  | createCatalog (name : String)
  | removeCatalog (name : String)
  | getContent
  | hasChanged
  | getCatalogVersion (catalogName packageName : String)
  | listCatalogs
  | getCatalogPackages (catalogName : String)
  | getPackageCatalogs (packageName : String)
  | toString
deriving DecidableEq, Repr

/-- Effect of one public operation on the model state. -/
def applyOp (m : Model) : Op → Model
  | .setContent c => setContent m c
  | .setPackage c p v => setPackage m c p v
  | .setCatalogVersion c p v => setCatalogVersion m c p v
  | .createCatalog n => createCatalog m n
  | .removeCatalog n => removeCatalog m n
  | .getContent => m
  | .hasChanged => m
  | .getCatalogVersion _ _ => m
  | .listCatalogs => m
  | .getCatalogPackages _ => m
  | .getPackageCatalogs _ => m
  | .toString => m

/-- Effect of a sequence of operations. -/
def applyOps (m : Model) (ops : List Op) : Model :=
  ops.foldl applyOp m

/-- The read-only operations. -/
def Op.isRead : Op → Bool
  | .getContent | .hasChanged | .getCatalogVersion _ _ | .listCatalogs
  | .getCatalogPackages _ | .getPackageCatalogs _ | .toString => true
  | _ => false

/-- Whether an operation is `setContent` (the one wholesale replacement). -/
def Op.isSetContent : Op → Bool
  | .setContent _ => true
  | _ => false

/-- Whether catalog `n` exists in the document: the default slot is present,
or `catalogs` has an entry for `n`. -/
def catalogExists (m : Model) (n : String) : Bool :=
  if n = "default" then
    (m.config.workspaces.bind (·.catalog)).isSome
  else
    ((m.config.workspaces.bind (·.catalogs)).bind (fun cs => getKey cs n)).isSome

/-- Keys of the named-catalogs container (empty when absent). -/
def namedCatalogKeys (m : Model) : List String :=
  match m.config.workspaces.bind (·.catalogs) with
  | some cs => keys cs
  | none => []

/-- The structural invariant of the data model: `"default"` is never a key
inside `workspaces.catalogs`. -/
def NoDefaultKey (m : Model) : Prop :=
  "default" ∉ namedCatalogKeys m

/-- Well-formedness of a document as `JSON.parse` produces it: object keys
are unique, at every nesting level of the catalogs structure. -/
def WellFormed (m : Model) : Prop :=
  (namedCatalogKeys m).Nodup

/-- The default-catalog slot `workspaces?.catalog`. -/
def defaultSlot (m : Model) : Option (StrMap String) :=
  m.config.workspaces.bind (·.catalog)

/-- The named-catalogs container `workspaces?.catalogs`. -/
def namedSlot (m : Model) : Option (StrMap (StrMap String)) :=
  m.config.workspaces.bind (·.catalogs)

instance (m : Model) : Decidable (NoDefaultKey m) :=
  inferInstanceAs (Decidable ("default" ∉ namedCatalogKeys m))

instance (m : Model) : Decidable (WellFormed m) :=
  inferInstanceAs (Decidable ((namedCatalogKeys m).Nodup))

/-! ## The serialization boundary

`parseBunWorkspace` begins with `JSON.parse(content)` and `toString` is
`JSON.stringify(config, null, 2)`.  The JSON values a configuration document
can contain are strings, arrays and objects (fields in insertion order);
`JSON.parse` and `JSON.stringify(·, null, 2)` are embedded below for that
fragment. -/

/-- A JSON value of the fragment relevant to configuration documents. -/
inductive Json where
  | str (s : String)
  | arr (elems : List Json)
  | obj (fields : List (String × Json))
deriving Repr

/-- Lowercase hex digit, as `JSON.stringify` emits in `\u00XX` escapes. -/
def hexDigit (n : Nat) : Char :=
  if n < 10 then Char.ofNat (48 + n) else Char.ofNat (87 + n)

/-- The `JSON.stringify` escaping of one character of a string: `\"`, `\\`, the
short control escapes `\b \t \n \f \r`, `\u00XX` for the other control
characters, and everything else verbatim. -/
def escapeChar (c : Char) : List Char :=
  if c = '"' then ['\\', '"']
  else if c = '\\' then ['\\', '\\']
  else if c = '\x08' then ['\\', 'b']
  else if c = '\t' then ['\\', 't']
  else if c = '\n' then ['\\', 'n']
  else if c = '\x0c' then ['\\', 'f']
  else if c = '\r' then ['\\', 'r']
  else if c.toNat < 32 then
    ['\\', 'u', '0', '0', hexDigit (c.toNat / 16), hexDigit (c.toNat % 16)]
  else [c]

/-- Escape every character of a string body. -/
def escapeList (cs : List Char) : List Char :=
  (cs.map escapeChar).flatten

/-- Indentation produced by the gap argument `2`: two spaces per level. -/
def indentChars (n : Nat) : List Char :=
  List.replicate (2 * n) ' '

mutual
/-- The `JSON.stringify(v, null, 2)` of a value nested at depth `ind`. -/
def printVal (ind : Nat) : Json → List Char
  | .str s => '"' :: (escapeList s.data ++ ['"'])
  | .arr [] => ['[', ']']
  | .arr (x :: xs) =>
    '[' :: '\n' :: (printItems ind (x :: xs) ++ '\n' :: (indentChars ind ++ [']']))
  | .obj [] => ['\x7b', '\x7d']
  | .obj (f :: fs) =>
    '\x7b' :: '\n' :: (printFields ind (f :: fs) ++ '\n' :: (indentChars ind ++ ['\x7d']))
/-- Array elements, one per line, comma-separated. -/
def printItems (ind : Nat) : List Json → List Char
  | [] => []
  | [x] => indentChars (ind + 1) ++ printVal (ind + 1) x
  | x :: y :: xs =>
    indentChars (ind + 1) ++ (printVal (ind + 1) x ++ ',' :: '\n' :: printItems ind (y :: xs))
/-- Object fields, one per line, `"key": value`, comma-separated. -/
def printFields (ind : Nat) : List (String × Json) → List Char
  | [] => []
  | [(k, v)] =>
    indentChars (ind + 1) ++
      ('"' :: (escapeList k.data ++ '"' :: ':' :: ' ' :: printVal (ind + 1) v))
  | (k, v) :: f :: fs =>
    indentChars (ind + 1) ++
      ('"' :: (escapeList k.data ++ '"' :: ':' :: ' ' ::
        (printVal (ind + 1) v ++ ',' :: '\n' :: printFields ind (f :: fs))))
end

/-- The `JSON.stringify(v, null, 2)` of the whole document. -/
def stringify2 (j : Json) : String :=
  String.mk (printVal 0 j)

/-- JSON whitespace. -/
def isWs (c : Char) : Bool :=
  c = ' ' || c = '\n' || c = '\t' || c = '\r'

/-- Drop leading JSON whitespace. -/
def skipWs : List Char → List Char
  | [] => []
  | c :: rest => if isWs c then skipWs rest else c :: rest

/-- Value of a hex digit. -/
def hexVal (c : Char) : Option Nat :=
  if '0' ≤ c ∧ c ≤ '9' then some (c.toNat - 48)
  else if 'a' ≤ c ∧ c ≤ 'f' then some (c.toNat - 87)
  else if 'A' ≤ c ∧ c ≤ 'F' then some (c.toNat - 55)
  else none

/-- Cons a decoded character onto a string-body parse result. -/
def consRes (c : Char) (r : Option (List Char × List Char)) :
    Option (List Char × List Char) :=
  r.map (fun p => (c :: p.1, p.2))

/-- Parse a JSON string body after the opening quote, up to and including the
closing quote; returns the decoded characters and the remaining input. -/
def parseStringBody : List Char → Option (List Char × List Char)
  | [] => none
  | c :: rest =>
    if c = '"' then some ([], rest)
    else if c = '\\' then
      match rest with
      | [] => none
      | e :: rest2 =>
        if e = '"' then consRes '"' (parseStringBody rest2)
        else if e = '\\' then consRes '\\' (parseStringBody rest2)
        else if e = '/' then consRes '/' (parseStringBody rest2)
        else if e = 'b' then consRes '\x08' (parseStringBody rest2)
        else if e = 't' then consRes '\t' (parseStringBody rest2)
        else if e = 'n' then consRes '\n' (parseStringBody rest2)
        else if e = 'f' then consRes '\x0c' (parseStringBody rest2)
        else if e = 'r' then consRes '\r' (parseStringBody rest2)
        else if e = 'u' then
          match rest2 with
          | h1 :: h2 :: h3 :: h4 :: rest3 =>
            match hexVal h1, hexVal h2, hexVal h3, hexVal h4 with
            | some a, some b, some c3, some d =>
              consRes (Char.ofNat (((a * 16 + b) * 16 + c3) * 16 + d)) (parseStringBody rest3)
            | _, _, _, _ => none
          | _ => none
        else none
    else consRes c (parseStringBody rest)

mutual
/-- Parse one JSON value (string, array or object) after optional leading
whitespace.  `fuel` bounds the recursion depth. -/
def parseValue : Nat → List Char → Option (Json × List Char)
  | 0, _ => none
  | fuel + 1, l =>
    match skipWs l with
    | [] => none
    | c :: r =>
      if c = '"' then
        (parseStringBody r).map (fun p => (Json.str (String.mk p.1), p.2))
      else if c = '[' then
        match skipWs r with
        | [] => none
        | c2 :: r2 =>
          if c2 = ']' then some (Json.arr [], r2)
          else (parseItems fuel r).map (fun p => (Json.arr p.1, p.2))
      else if c = '\x7b' then
        match skipWs r with
        | [] => none
        | c2 :: r2 =>
          if c2 = '\x7d' then some (Json.obj [], r2)
          else (parseFields fuel r).map (fun p => (Json.obj p.1, p.2))
      else none
/-- Parse the non-empty element list of an array, consuming the closing `]`. -/
def parseItems : Nat → List Char → Option (List Json × List Char)
  | 0, _ => none
  | fuel + 1, l =>
    match parseValue fuel l with
    | none => none
    | some (j, r) =>
      match skipWs r with
      | [] => none
      | c :: r2 =>
        if c = ',' then (parseItems fuel r2).map (fun p => (j :: p.1, p.2))
        else if c = ']' then some ([j], r2)
        else none
/-- Parse the non-empty field list of an object, consuming the closing `}`. -/
def parseFields : Nat → List Char → Option (List (String × Json) × List Char)
  | 0, _ => none
  | fuel + 1, l =>
    match skipWs l with
    | [] => none
    | c :: r =>
      if c = '"' then
        match parseStringBody r with
        | none => none
        | some (k, r2) =>
          match skipWs r2 with
          | [] => none
          | c2 :: r3 =>
            if c2 = ':' then
              match parseValue fuel r3 with
              | none => none
              | some (v, r4) =>
                match skipWs r4 with
                | [] => none
                | c3 :: r5 =>
                  if c3 = ',' then
                    (parseFields fuel r5).map (fun p => ((String.mk k, v) :: p.1, p.2))
                  else if c3 = '\x7d' then some ([(String.mk k, v)], r5)
                  else none
            else none
      else none
end

/-- The `JSON.parse` for the configuration-document fragment: one value, nothing
but whitespace after it. -/
def jsonParse (s : String) : Option Json :=
  match parseValue (s.data.length + 1) s.data with
  | some (j, rest) => if skipWs rest = [] then some j else none
  | none => none

mutual
/-- Recursion-depth weight of a value, a lower bound for the parser fuel. -/
def jweight : Json → Nat
  | .str _ => 1
  | .arr xs => 1 + lweight xs
  | .obj fs => 1 + fweight fs
/-- Fuel weight of an array element list. -/
def lweight : List Json → Nat
  | [] => 1
  | x :: xs => jweight x + 1 + lweight xs
/-- Fuel weight of an object field list. -/
def fweight : List (String × Json) → Nat
  | [] => 1
  | f :: fs => jweight f.2 + 1 + fweight fs
end

/-- Is this value a JSON string? -/
def isJsonStr : Json → Bool
  | .str _ => true
  | _ => false

/-- Is this value an object all of whose field values are strings
(a `Record<string, string>`)? -/
def isStrMapJ : Json → Bool
  | .obj fs => fs.all (fun f => isJsonStr f.2)
  | _ => false

/-- Does this value fit the `workspaces` object of `BunWorkspaceSchema`?
Known fields must have their declared shapes; extra fields are tolerated, as
TypeScript structural typing tolerates them. -/
def isWorkspacesJ : Json → Bool
  | .obj fs => fs.all (fun f =>
      if f.1 = "packages" then
        match f.2 with
        | .arr xs => xs.all isJsonStr
        | _ => false
      else if f.1 = "catalog" then isStrMapJ f.2
      else if f.1 = "catalogs" then
        match f.2 with
        | .obj cs => cs.all (fun c => isStrMapJ c.2)
        | _ => false
      else true)
  | _ => false

/-- Does this value fit `BunWorkspaceSchema` (a valid configuration
document)? -/
def isConfigDoc : Json → Bool
  | .obj fs => fs.all (fun f => if f.1 = "workspaces" then isWorkspacesJ f.2 else true)
  | _ => false

/-- The state of `parseBunWorkspace` at the serialization boundary: the raw
value `JSON.parse` returned, before any typed access. -/
structure RawModel where
  config : Json
  hasChanged : Bool

/-- The `parseBunWorkspace` seen at the serialization boundary. -/
def parseRaw (j : Json) : RawModel :=
  { config := j, hasChanged := false }

/-- The `toString`: `JSON.stringify(config, null, 2)`. -/
def RawModel.toStr (m : RawModel) : String :=
  stringify2 m.config

section MapLemmas

variable {α : Type}

theorem getKey_setKey_self (m : StrMap α) (k : String) (v : α) :
    getKey (setKey m k v) k = some v := by
  induction m with
  | nil => simp [setKey, getKey]
  | cons hd tl ih =>
    obtain ⟨k', v'⟩ := hd
    by_cases h : k' = k
    · simp [setKey, getKey, h]
    · simp [setKey, getKey, h, ih]

theorem getKey_setKey_ne (m : StrMap α) {k k' : String} (v : α) (h : k ≠ k') :
    getKey (setKey m k v) k' = getKey m k' := by
  induction m with
  | nil => simp [setKey, getKey, h]
  | cons hd tl ih =>
    obtain ⟨k0, v0⟩ := hd
    by_cases h0 : k0 = k
    · simp [setKey, getKey, h0, h]
    · simp [setKey, getKey, h0, ih]

theorem setKey_setKey (m : StrMap α) (k : String) (a b : α) :
    setKey (setKey m k a) k b = setKey m k b := by
  induction m with
  | nil => simp [setKey]
  | cons hd tl ih =>
    obtain ⟨k0, v0⟩ := hd
    by_cases h0 : k0 = k
    · simp [setKey, h0]
    · simp [setKey, h0, ih]

theorem length_setKey_present (m : StrMap α) {k : String} {w : α} (v : α)
    (h : getKey m k = some w) : (setKey m k v).length = m.length := by
  induction m with
  | nil => simp [getKey] at h
  | cons hd tl ih =>
    obtain ⟨k0, v0⟩ := hd
    by_cases h0 : k0 = k
    · simp [setKey, h0]
    · simp [getKey, h0] at h
      simp [setKey, h0, ih h]

theorem length_setKey_absent (m : StrMap α) {k : String} (v : α)
    (h : getKey m k = none) : (setKey m k v).length = m.length + 1 := by
  induction m with
  | nil => simp [setKey]
  | cons hd tl ih =>
    obtain ⟨k0, v0⟩ := hd
    by_cases h0 : k0 = k
    · simp [getKey, h0] at h
    · simp [getKey, h0] at h
      simp [setKey, h0, ih h]

theorem mem_keys_setKey (m : StrMap α) (k a : String) (v : α)
    (h : a ∈ keys (setKey m k v)) : a ∈ keys m ∨ a = k := by
  induction m with
  | nil => simpa [setKey, keys] using h
  | cons hd tl ih =>
    obtain ⟨k0, v0⟩ := hd
    by_cases h0 : k0 = k
    · simp [setKey, keys, h0] at h
      rcases h with h | h
      · right; exact h
      · left; simp [keys, h]
    · simp [setKey, keys, h0] at h
      rcases h with h | h
      · left; simp [keys, h]
      · rcases ih (by simpa [keys] using h) with h1 | h1
        · left; simp [keys]; right; simpa [keys] using h1
        · right; exact h1

theorem getKey_eq_none_of_not_mem (m : StrMap α) {k : String}
    (h : k ∉ keys m) : getKey m k = none := by
  induction m with
  | nil => simp [getKey]
  | cons hd tl ih =>
    obtain ⟨k0, v0⟩ := hd
    simp only [keys, List.map_cons, List.mem_cons, not_or] at h
    have h1 : ¬ k0 = k := fun hh => h.1 hh.symm
    simp only [getKey, h1, if_false]
    exact ih (by simpa [keys] using h.2)

theorem keys_setKey_absent (m : StrMap α) {k : String} (v : α)
    (h : getKey m k = none) : keys (setKey m k v) = keys m ++ [k] := by
  induction m with
  | nil => simp [setKey, keys]
  | cons hd tl ih =>
    obtain ⟨k0, v0⟩ := hd
    by_cases h0 : k0 = k
    · simp [getKey, h0] at h
    · simp [getKey, h0] at h
      simp only [setKey, h0, if_neg, keys, List.map_cons, List.cons_append, List.cons.injEq,
        true_and]
      simpa [keys] using ih h

theorem mem_keys_delKey (m : StrMap α) (k a : String)
    (h : a ∈ keys (delKey m k)) : a ∈ keys m := by
  simp only [keys, delKey] at h ⊢
  rcases List.mem_map.mp h with ⟨p, hp, rfl⟩
  exact List.mem_map.mpr ⟨p, List.mem_of_mem_filter hp, rfl⟩

theorem getKey_delKey_self (m : StrMap α) (k : String) :
    getKey (delKey m k) k = none := by
  induction m with
  | nil => simp [delKey, getKey]
  | cons hd tl ih =>
    obtain ⟨k0, v0⟩ := hd
    by_cases h0 : k0 = k
    · simpa [delKey, h0] using ih
    · simpa [delKey, getKey, h0] using ih

theorem length_delKey_present (m : StrMap α) {k : String} {w : α}
    (h : getKey m k = some w) : (delKey m k).length < m.length := by
  induction m with
  | nil => simp [getKey] at h
  | cons hd tl ih =>
    obtain ⟨k0, v0⟩ := hd
    by_cases h0 : k0 = k
    · simp only [delKey, List.filter]
      simp only [h0, decide_not]
      simp only [decide_True, Bool.not_true]
      calc (List.filter (fun p => !decide (p.1 = k)) tl).length
          ≤ tl.length := List.length_filter_le _ _
        _ < (⟨k0, v0⟩ :: tl : StrMap α).length := by simp
    · simp [getKey, h0] at h
      have := ih h
      simp only [delKey, List.filter] at this ⊢
      simp only [h0, decide_not, decide_False, Bool.not_false]
      simpa using Nat.succ_lt_succ this

theorem collectCatalogs_eq_filter (cs : StrMap (StrMap String)) (p : String)
    (ks : List String) :
    collectCatalogs cs p ks =
      ks.filter (fun n => jsTruthy ((getKey cs n).bind (fun cat => getKey cat p))) := by
  induction ks with
  | nil => simp [collectCatalogs]
  | cons hd tl ih =>
    by_cases h : jsTruthy ((getKey cs hd).bind (fun cat => getKey cat p)) = true
    · simp [collectCatalogs, h, List.filter, ih]
    · simp only [Bool.not_eq_true] at h
      simp [collectCatalogs, h, List.filter, ih]

end MapLemmas

section OpLemmas

/-- The `setCatalogVersion` on `"default"` writes through `workspaces.catalog`,
auto-creating the slot, and touches nothing else. -/
theorem setCatalogVersion_default_eq (m : Model) (p v : String) :
    setCatalogVersion m "default" p v =
      { config := { workspaces := some {
            packages := m.config.workspaces.bind (·.packages),
            catalog := some (setKey ((defaultSlot m).getD []) p v),
            catalogs := namedSlot m } },
        hasChanged := true } := by
  obtain ⟨⟨ows⟩, flag⟩ := m
  cases ows with
  | none =>
    simp [setCatalogVersion, createCatalog, ensureWorkspaces, defaultSlot, namedSlot]
  | some ws =>
    obtain ⟨pk, ocat, ocats⟩ := ws
    cases ocat with
    | none =>
      simp [setCatalogVersion, createCatalog, ensureWorkspaces, defaultSlot, namedSlot]
    | some cat =>
      simp [setCatalogVersion, createCatalog, ensureWorkspaces, defaultSlot, namedSlot]

/-- The `setCatalogVersion` on a named catalog writes through
`workspaces.catalogs[n]`, auto-creating the container and the entry, and
touches nothing else. -/
theorem setCatalogVersion_named_eq (m : Model) {n : String} (p v : String)
    (h : n ≠ "default") :
    setCatalogVersion m n p v =
      { config := { workspaces := some {
            packages := m.config.workspaces.bind (·.packages),
            catalog := defaultSlot m,
            catalogs := some (setKey ((namedSlot m).getD []) n
              (setKey ((getKey ((namedSlot m).getD []) n).getD []) p v)) } },
        hasChanged := true } := by
  obtain ⟨⟨ows⟩, flag⟩ := m
  cases ows with
  | none =>
    simp [setCatalogVersion, createCatalog, ensureWorkspaces, defaultSlot, namedSlot, h,
      getKey, setKey]
  | some ws =>
    obtain ⟨pk, ocat, ocats⟩ := ws
    cases ocats with
    | none =>
      simp [setCatalogVersion, createCatalog, ensureWorkspaces, defaultSlot, namedSlot, h,
        getKey, setKey, getKey_setKey_self, setKey_setKey]
    | some cs =>
      cases hk : getKey cs n with
      | none =>
        simp [setCatalogVersion, createCatalog, ensureWorkspaces, defaultSlot, namedSlot, h,
          hk, getKey_setKey_self, setKey_setKey]
      | some cat =>
        simp [setCatalogVersion, createCatalog, ensureWorkspaces, defaultSlot, namedSlot, h, hk]

/-- The `createCatalog` on an existing catalog (even an empty one) is the
identity on the whole model. -/
theorem createCatalog_exists_eq (m : Model) {n : String}
    (h : catalogExists m n = true) : createCatalog m n = m := by
  obtain ⟨⟨ows⟩, flag⟩ := m
  cases ows with
  | none =>
    by_cases hd : n = "default" <;>
      simp [catalogExists, defaultSlot, namedSlot, hd] at h
  | some ws =>
    obtain ⟨pk, ocat, ocats⟩ := ws
    by_cases hd : n = "default"
    · subst hd
      cases ocat with
      | none => simp [catalogExists] at h
      | some cat => simp [createCatalog, ensureWorkspaces]
    · simp [catalogExists, hd] at h
      cases ocats with
      | none => simp at h
      | some cs =>
        simp [Option.isSome_iff_exists] at h
        obtain ⟨cat, hcat⟩ := h
        simp [createCatalog, ensureWorkspaces, hd, hcat]

/-- The `createCatalog` establishes existence of the catalog it names. -/
theorem catalogExists_createCatalog_self (m : Model) (n : String) :
    catalogExists (createCatalog m n) n = true := by
  obtain ⟨⟨ows⟩, flag⟩ := m
  by_cases hd : n = "default"
  · subst hd
    cases ows with
    | none => simp [createCatalog, ensureWorkspaces, catalogExists, defaultSlot]
    | some ws =>
      obtain ⟨pk, ocat, ocats⟩ := ws
      cases ocat with
      | none => simp [createCatalog, ensureWorkspaces, catalogExists, defaultSlot]
      | some cat => simp [createCatalog, ensureWorkspaces, catalogExists, defaultSlot]
  · cases ows with
    | none =>
      simp [createCatalog, ensureWorkspaces, catalogExists, namedSlot, hd, getKey]
    | some ws =>
      obtain ⟨pk, ocat, ocats⟩ := ws
      cases ocats with
      | none =>
        simp [createCatalog, ensureWorkspaces, catalogExists, namedSlot, hd, getKey]
      | some cs =>
        cases hk : getKey cs n with
        | none =>
          simp [createCatalog, ensureWorkspaces, catalogExists, namedSlot, hd, hk,
            getKey_setKey_self]
        | some cat =>
          simp [createCatalog, ensureWorkspaces, catalogExists, namedSlot, hd, hk]

/-- The `createCatalog` either leaves the model untouched or records a change. -/
theorem createCatalog_eq_or_changed (m : Model) (n : String) :
    createCatalog m n = m ∨ (createCatalog m n).hasChanged = true := by
  obtain ⟨⟨ows⟩, flag⟩ := m
  cases ows with
  | none =>
    right
    by_cases hd : n = "default" <;>
      simp [createCatalog, ensureWorkspaces, hd, getKey]
  | some ws =>
    obtain ⟨pk, ocat, ocats⟩ := ws
    by_cases hd : n = "default"
    · subst hd
      cases ocat with
      | none => right; simp [createCatalog, ensureWorkspaces]
      | some cat => left; simp [createCatalog, ensureWorkspaces]
    · cases ocats with
      | none => right; simp [createCatalog, ensureWorkspaces, hd]
      | some cs =>
        cases hk : getKey cs n with
        | none => right; simp [createCatalog, ensureWorkspaces, hd, hk]
        | some cat => left; simp [createCatalog, ensureWorkspaces, hd, hk]

/-- The `removeCatalog` of an absent catalog is the identity on the whole
model. -/
theorem removeCatalog_eq_of_not_exists (m : Model) {n : String}
    (h : catalogExists m n = false) : removeCatalog m n = m := by
  obtain ⟨⟨ows⟩, flag⟩ := m
  by_cases hd : n = "default"
  · subst hd
    cases ows with
    | none => simp [removeCatalog]
    | some ws =>
      obtain ⟨pk, ocat, ocats⟩ := ws
      cases ocat with
      | none => simp [removeCatalog]
      | some cat => simp [catalogExists, defaultSlot] at h
  · cases ows with
    | none => simp [removeCatalog, hd]
    | some ws =>
      obtain ⟨pk, ocat, ocats⟩ := ws
      cases ocats with
      | none => simp [removeCatalog, hd]
      | some cs =>
        cases hk : getKey cs n with
        | none => simp [removeCatalog, hd, hk]
        | some cat => simp [catalogExists, namedSlot, hd, hk] at h

/-- The `removeCatalog` of an existing catalog records a change and deletes the
catalog's key from the document. -/
theorem removeCatalog_exists (m : Model) {n : String}
    (h : catalogExists m n = true) :
    (removeCatalog m n).hasChanged = true ∧
      catalogExists (removeCatalog m n) n = false := by
  obtain ⟨⟨ows⟩, flag⟩ := m
  by_cases hd : n = "default"
  · subst hd
    cases ows with
    | none => simp [catalogExists, defaultSlot] at h
    | some ws =>
      obtain ⟨pk, ocat, ocats⟩ := ws
      cases ocat with
      | none => simp [catalogExists, defaultSlot] at h
      | some cat => simp [removeCatalog, catalogExists, defaultSlot]
  · cases ows with
    | none => simp [catalogExists, namedSlot, hd, getKey] at h
    | some ws =>
      obtain ⟨pk, ocat, ocats⟩ := ws
      cases ocats with
      | none => simp [catalogExists, namedSlot, hd] at h
      | some cs =>
        cases hk : getKey cs n with
        | none => simp [catalogExists, namedSlot, hd, hk] at h
        | some cat =>
          simp [removeCatalog, catalogExists, namedSlot, hd, hk, getKey_delKey_self]

/-- The `removeCatalog` either leaves the model untouched or records a change. -/
theorem removeCatalog_eq_or_changed (m : Model) (n : String) :
    removeCatalog m n = m ∨ (removeCatalog m n).hasChanged = true := by
  cases h : catalogExists m n with
  | false => left; exact removeCatalog_eq_of_not_exists m h
  | true => right; exact (removeCatalog_exists m h).1

/-- The `setCatalogVersion` always records a change. -/
theorem hasChanged_setCatalogVersion (m : Model) (c p v : String) :
    (setCatalogVersion m c p v).hasChanged = true := by
  by_cases hd : c = "default"
  · subst hd; rw [setCatalogVersion_default_eq]
  · rw [setCatalogVersion_named_eq m p v hd]

/-- Writing a version and reading the same catalog/package back yields it. -/
theorem getCatalogVersion_setCatalogVersion_self (m : Model) (c p v : String) :
    getCatalogVersion (setCatalogVersion m c p v) c p = some v := by
  by_cases hd : c = "default"
  · subst hd
    rw [setCatalogVersion_default_eq]
    simp [getCatalogVersion, getKey_setKey_self]
  · rw [setCatalogVersion_named_eq m p v hd]
    simp [getCatalogVersion, hd, getKey_setKey_self]

/-- The named-catalog keys are the keys of the container, if any. -/
theorem namedCatalogKeys_def (m : Model) :
    namedCatalogKeys m = keys ((namedSlot m).getD []) := by
  cases h : m.config.workspaces.bind (·.catalogs) with
  | none => simp [namedCatalogKeys, namedSlot, h, keys]
  | some cs => simp [namedCatalogKeys, namedSlot, h]

/-- The `createCatalog "default"` only touches the default slot. -/
theorem namedSlot_createCatalog_default (m : Model) :
    namedSlot (createCatalog m "default") = namedSlot m := by
  obtain ⟨⟨ows⟩, flag⟩ := m
  cases ows with
  | none => simp [createCatalog, ensureWorkspaces, namedSlot]
  | some ws =>
    obtain ⟨pk, ocat, ocats⟩ := ws
    cases ocat with
    | none => simp [createCatalog, ensureWorkspaces, namedSlot]
    | some cat => simp [createCatalog, ensureWorkspaces, namedSlot]

/-- The `createCatalog "default"` fills the default slot (with `{}` if absent). -/
theorem defaultSlot_createCatalog_default (m : Model) :
    defaultSlot (createCatalog m "default") = some ((defaultSlot m).getD []) := by
  obtain ⟨⟨ows⟩, flag⟩ := m
  cases ows with
  | none => simp [createCatalog, ensureWorkspaces, defaultSlot]
  | some ws =>
    obtain ⟨pk, ocat, ocats⟩ := ws
    cases ocat with
    | none => simp [createCatalog, ensureWorkspaces, defaultSlot]
    | some cat => simp [createCatalog, ensureWorkspaces, defaultSlot]

/-- The `createCatalog` of a named catalog leaves the default slot alone. -/
theorem defaultSlot_createCatalog_named (m : Model) {n : String}
    (h : n ≠ "default") : defaultSlot (createCatalog m n) = defaultSlot m := by
  obtain ⟨⟨ows⟩, flag⟩ := m
  cases ows with
  | none => simp [createCatalog, ensureWorkspaces, defaultSlot, h]
  | some ws =>
    obtain ⟨pk, ocat, ocats⟩ := ws
    cases ocats with
    | none => simp [createCatalog, ensureWorkspaces, defaultSlot, h]
    | some cs =>
      cases hk : getKey cs n with
      | none => simp [createCatalog, ensureWorkspaces, defaultSlot, h, hk]
      | some cat => simp [createCatalog, ensureWorkspaces, defaultSlot, h, hk]

/-- The `createCatalog` of a named catalog: the container keeps its entries, the
named entry is created empty when absent. -/
theorem namedSlot_createCatalog_named (m : Model) {n : String}
    (h : n ≠ "default") :
    namedSlot (createCatalog m n) =
      some (if (getKey ((namedSlot m).getD []) n).isSome then (namedSlot m).getD []
            else setKey ((namedSlot m).getD []) n []) := by
  obtain ⟨⟨ows⟩, flag⟩ := m
  cases ows with
  | none => simp [createCatalog, ensureWorkspaces, namedSlot, h, getKey, setKey]
  | some ws =>
    obtain ⟨pk, ocat, ocats⟩ := ws
    cases ocats with
    | none => simp [createCatalog, ensureWorkspaces, namedSlot, h, getKey, setKey]
    | some cs =>
      cases hk : getKey cs n with
      | none => simp [createCatalog, ensureWorkspaces, namedSlot, h, hk]
      | some cat => simp [createCatalog, ensureWorkspaces, namedSlot, h, hk]

/-- The `removeCatalog "default"` of an existing default catalog deletes the
`catalog` key and touches nothing else. -/
theorem removeCatalog_default_exists_eq (m : Model)
    (h : catalogExists m "default" = true) :
    removeCatalog m "default" =
      { config := { workspaces := some {
            packages := m.config.workspaces.bind (·.packages),
            catalog := none,
            catalogs := namedSlot m } },
        hasChanged := true } := by
  obtain ⟨⟨ows⟩, flag⟩ := m
  cases ows with
  | none => simp [catalogExists, defaultSlot] at h
  | some ws =>
    obtain ⟨pk, ocat, ocats⟩ := ws
    cases ocat with
    | none => simp [catalogExists, defaultSlot] at h
    | some cat => simp [removeCatalog, namedSlot]

/-- The `removeCatalog` of an existing named catalog deletes its `catalogs` entry
and touches nothing else. -/
theorem removeCatalog_named_exists_eq (m : Model) {n : String}
    (hd : n ≠ "default") (h : catalogExists m n = true) :
    removeCatalog m n =
      { config := { workspaces := some {
            packages := m.config.workspaces.bind (·.packages),
            catalog := defaultSlot m,
            catalogs := some (delKey ((namedSlot m).getD []) n) } },
        hasChanged := true } := by
  obtain ⟨⟨ows⟩, flag⟩ := m
  cases ows with
  | none => simp [catalogExists, namedSlot, hd] at h
  | some ws =>
    obtain ⟨pk, ocat, ocats⟩ := ws
    cases ocats with
    | none => simp [catalogExists, namedSlot, hd] at h
    | some cs =>
      cases hk : getKey cs n with
      | none => simp [catalogExists, namedSlot, hd, hk] at h
      | some cat => simp [removeCatalog, defaultSlot, namedSlot, hd, hk]

/-- One operation never resets the change flag. -/
theorem hasChanged_applyOp_mono (m : Model) (o : Op) (h : m.hasChanged = true) :
    (applyOp m o).hasChanged = true := by
  cases o with
  | setContent c => simp [applyOp, setContent]
  | setPackage c p v => simpa [applyOp, setPackage] using hasChanged_setCatalogVersion m c p v
  | setCatalogVersion c p v => exact hasChanged_setCatalogVersion m c p v
  | createCatalog n =>
    rcases createCatalog_eq_or_changed m n with he | hc
    · simpa [applyOp, he] using h
    · exact hc
  | removeCatalog n =>
    rcases removeCatalog_eq_or_changed m n with he | hc
    · simpa [applyOp, he] using h
    · exact hc
  | getContent => exact h
  | hasChanged => exact h
  | getCatalogVersion c p => exact h
  | listCatalogs => exact h
  | getCatalogPackages c => exact h
  | getPackageCatalogs p => exact h
  | toString => exact h

/-- No sequence of operations ever resets the change flag. -/
theorem hasChanged_applyOps_mono (ops : List Op) :
    ∀ m : Model, m.hasChanged = true → (applyOps m ops).hasChanged = true := by
  induction ops with
  | nil => intro m h; exact h
  | cons o rest ih =>
    intro m h
    exact ih (applyOp m o) (hasChanged_applyOp_mono m o h)

/-- One operation other than `setContent` never introduces a `"default"` key
into `workspaces.catalogs`. -/
theorem noDefaultKey_applyOp (m : Model) (o : Op) (ho : o.isSetContent = false)
    (h : NoDefaultKey m) : NoDefaultKey (applyOp m o) := by
  have hset : ∀ c p v : String, NoDefaultKey (setCatalogVersion m c p v) := by
    intro c p v
    by_cases hd : c = "default"
    · subst hd
      intro hmem
      rw [namedCatalogKeys_def] at hmem
      rw [setCatalogVersion_default_eq] at hmem
      simp only [namedSlot] at hmem
      exact h (by rw [namedCatalogKeys_def]; simpa [namedSlot] using hmem)
    · intro hmem
      rw [namedCatalogKeys_def] at hmem
      rw [setCatalogVersion_named_eq m p v hd] at hmem
      simp only [namedSlot, Option.bind_some, Option.getD_some] at hmem
      rcases mem_keys_setKey _ _ _ _ hmem with h1 | h1
      · exact h (by rw [namedCatalogKeys_def]; exact h1)
      · exact hd h1.symm
  cases o with
  | setContent c => simp [Op.isSetContent] at ho
  | setPackage c p v => exact hset c p v
  | setCatalogVersion c p v => exact hset c p v
  | createCatalog n =>
    by_cases hd : n = "default"
    · subst hd
      intro hmem
      rw [show applyOp m (Op.createCatalog "default") = createCatalog m "default" from rfl,
        namedCatalogKeys_def, namedSlot_createCatalog_default] at hmem
      exact h (by rw [namedCatalogKeys_def]; exact hmem)
    · intro hmem
      rw [show applyOp m (Op.createCatalog n) = createCatalog m n from rfl,
        namedCatalogKeys_def, namedSlot_createCatalog_named m hd] at hmem
      simp only [Option.getD_some] at hmem
      by_cases hp : (getKey ((namedSlot m).getD []) n).isSome
      · rw [if_pos hp] at hmem
        exact h (by rw [namedCatalogKeys_def]; exact hmem)
      · rw [if_neg hp] at hmem
        rcases mem_keys_setKey _ _ _ _ hmem with h1 | h1
        · exact h (by rw [namedCatalogKeys_def]; exact h1)
        · exact hd h1.symm
  | removeCatalog n =>
    cases hex : catalogExists m n with
    | false =>
      intro hmem
      rw [show applyOp m (Op.removeCatalog n) = removeCatalog m n from rfl,
        removeCatalog_eq_of_not_exists m hex] at hmem
      exact h hmem
    | true =>
      by_cases hd : n = "default"
      · subst hd
        intro hmem
        rw [show applyOp m (Op.removeCatalog "default") = removeCatalog m "default" from rfl,
          namedCatalogKeys_def, removeCatalog_default_exists_eq m hex] at hmem
        simp only [namedSlot] at hmem
        exact h (by rw [namedCatalogKeys_def]; simpa [namedSlot] using hmem)
      · intro hmem
        rw [show applyOp m (Op.removeCatalog n) = removeCatalog m n from rfl,
          namedCatalogKeys_def, removeCatalog_named_exists_eq m hd hex] at hmem
        simp only [namedSlot, Option.bind_some, Option.getD_some] at hmem
        exact h (by rw [namedCatalogKeys_def]; exact mem_keys_delKey _ _ _ hmem)
  | getContent => exact h
  | hasChanged => exact h
  | getCatalogVersion c p => exact h
  | listCatalogs => exact h
  | getCatalogPackages c => exact h
  | getPackageCatalogs p => exact h
  | toString => exact h

/-- A default-catalog write leaves the named-catalog keys unchanged. -/
theorem namedCatalogKeys_setCatalogVersion_default (m : Model) (p v : String) :
    namedCatalogKeys (setCatalogVersion m "default" p v) = namedCatalogKeys m := by
  rw [namedCatalogKeys_def, namedCatalogKeys_def, setCatalogVersion_default_eq]
  simp [namedSlot]

/-- A default-catalog write updates the default slot in place. -/
theorem defaultSlot_setCatalogVersion_default (m : Model) (p v : String) :
    defaultSlot (setCatalogVersion m "default" p v) =
      some (setKey ((defaultSlot m).getD []) p v) := by
  rw [setCatalogVersion_default_eq]
  simp [defaultSlot]

/-- A named-catalog write updates the named container in place. -/
theorem namedSlot_setCatalogVersion_named (m : Model) {c : String} (p v : String)
    (hd : c ≠ "default") :
    namedSlot (setCatalogVersion m c p v) =
      some (setKey ((namedSlot m).getD []) c
        (setKey ((getKey ((namedSlot m).getD []) c).getD []) p v)) := by
  rw [setCatalogVersion_named_eq m p v hd]
  simp [namedSlot]

/-- The `getPackageCatalogs` as a filter over the named-catalog keys followed by
an optional `"default"`. -/
theorem getPackageCatalogs_eq_filter (m : Model) (p : String) :
    getPackageCatalogs m p =
      ((namedCatalogKeys m).filter
        (fun n => jsTruthy ((getKey ((namedSlot m).getD []) n).bind (fun cat => getKey cat p)))) ++
      (if jsTruthy ((defaultSlot m).bind (fun cat => getKey cat p)) then ["default"] else []) := by
  cases h : m.config.workspaces.bind (·.catalogs) with
  | none =>
    simp [getPackageCatalogs, namedCatalogKeys, namedSlot, defaultSlot, h]
  | some cs =>
    simp [getPackageCatalogs, namedCatalogKeys, namedSlot, defaultSlot, h,
      collectCatalogs_eq_filter]

/-- The `listCatalogs` as an optional `"default"` followed by the named keys. -/
theorem listCatalogs_eq (m : Model) :
    listCatalogs m =
      (if (defaultSlot m).isSome then ["default"] else []) ++ namedCatalogKeys m := by
  cases h1 : m.config.workspaces.bind (·.catalog) with
  | none =>
    cases h2 : m.config.workspaces.bind (·.catalogs) with
    | none => simp [listCatalogs, namedCatalogKeys, defaultSlot, h1, h2]
    | some cs => simp [listCatalogs, namedCatalogKeys, defaultSlot, h1, h2]
  | some cat =>
    cases h2 : m.config.workspaces.bind (·.catalogs) with
    | none => simp [listCatalogs, namedCatalogKeys, defaultSlot, h1, h2]
    | some cs => simp [listCatalogs, namedCatalogKeys, defaultSlot, h1, h2]

/-- The `getCatalogVersion` is exactly the lookup in `getCatalogPackages`. -/
theorem getCatalogVersion_eq_getKey (m : Model) (c p : String) :
    getCatalogVersion m c p = getKey (getCatalogPackages m c) p := by
  by_cases hd : c = "default"
  · subst hd
    cases h : m.config.workspaces.bind (·.catalog) with
    | none => simp [getCatalogVersion, getCatalogPackages, h, getKey]
    | some cat => simp [getCatalogVersion, getCatalogPackages, h]
  · cases h : (m.config.workspaces.bind (·.catalogs)).bind (fun cs => getKey cs c) with
    | none => simp [getCatalogVersion, getCatalogPackages, hd, h, getKey]
    | some cat => simp [getCatalogVersion, getCatalogPackages, hd, h]

/-- Lookups on an absent catalog: `undefined` version, empty mapping. -/
theorem lookups_of_not_exists (m : Model) {c : String} (p : String)
    (h : catalogExists m c = false) :
    getCatalogVersion m c p = none ∧ getCatalogPackages m c = [] := by
  by_cases hd : c = "default"
  · subst hd
    cases h1 : m.config.workspaces.bind (·.catalog) with
    | none => simp [getCatalogVersion, getCatalogPackages, h1, getKey]
    | some cat => simp [catalogExists, defaultSlot, h1] at h
  · cases h1 : (m.config.workspaces.bind (·.catalogs)).bind (fun cs => getKey cs c) with
    | none => simp [getCatalogVersion, getCatalogPackages, hd, h1, getKey]
    | some cat => simp [catalogExists, namedSlot, hd, h1] at h

end OpLemmas

section JsonLemmas

theorem string_mk_data (s : String) : String.mk s.data = s := by
  cases s
  rfl

theorem skipWs_cons_ws {c : Char} (l : List Char) (h : isWs c = true) :
    skipWs (c :: l) = skipWs l := by
  simp [skipWs, h]

theorem skipWs_cons_not_ws {c : Char} (l : List Char) (h : isWs c = false) :
    skipWs (c :: l) = c :: l := by
  simp [skipWs, h]

theorem skipWs_append_ws (w l : List Char) (h : ∀ c ∈ w, isWs c = true) :
    skipWs (w ++ l) = skipWs l := by
  induction w with
  | nil => rfl
  | cons c w' ih =>
    rw [List.cons_append, skipWs_cons_ws _ (h c (List.mem_cons_self c w'))]
    exact ih (fun c' hc' => h c' (List.mem_cons_of_mem c hc'))

theorem indentChars_all_ws (n : Nat) : ∀ c ∈ indentChars n, isWs c = true := by
  intro c hc
  have h : c = ' ' := List.eq_of_mem_replicate (by simpa [indentChars] using hc)
  subst h
  rfl

theorem parseValue_ws (fuel : Nat) (w l : List Char) (h : ∀ c ∈ w, isWs c = true) :
    parseValue fuel (w ++ l) = parseValue fuel l := by
  cases fuel with
  | zero => rfl
  | succ f => simp only [parseValue, skipWs_append_ws w l h]

theorem parseItems_ws (fuel : Nat) (w l : List Char) (h : ∀ c ∈ w, isWs c = true) :
    parseItems fuel (w ++ l) = parseItems fuel l := by
  cases fuel with
  | zero => rfl
  | succ f => simp only [parseItems, parseValue_ws f w l h]

theorem parseFields_ws (fuel : Nat) (w l : List Char) (h : ∀ c ∈ w, isWs c = true) :
    parseFields fuel (w ++ l) = parseFields fuel l := by
  cases fuel with
  | zero => rfl
  | succ f => simp only [parseFields, skipWs_append_ws w l h]

theorem hexVal_hexDigit (n : Nat) (h : n < 16) : hexVal (hexDigit n) = some n := by
  interval_cases n <;> decide

theorem parseStringBody_escape (cs : List Char) (rest : List Char) :
    parseStringBody (escapeList cs ++ '"' :: rest) = some (cs, rest) := by
  induction cs with
  | nil =>
    rw [show escapeList [] = [] from rfl, List.nil_append, parseStringBody.eq_def]
    simp
  | cons c cs' ih =>
    rw [show escapeList (c :: cs') = escapeChar c ++ escapeList cs' by
        simp [escapeList], List.append_assoc]
    by_cases h1 : c = '"'
    · subst h1
      rw [show escapeChar '"' = ['\\', '"'] from rfl]
      simp only [List.cons_append, List.nil_append]
      rw [parseStringBody.eq_def]
      simp [consRes, ih]
    · by_cases h2 : c = '\\'
      · subst h2
        rw [show escapeChar '\\' = ['\\', '\\'] from rfl]
        rw [List.cons_append, List.cons_append, List.nil_append, parseStringBody.eq_def]
        simp [consRes, ih]
      · by_cases h3 : c = '\x08'
        · subst h3
          rw [show escapeChar '\x08' = ['\\', 'b'] from rfl]
          simp only [List.cons_append, List.nil_append]
          rw [parseStringBody.eq_def]
          simp [consRes, ih]
        · by_cases h4 : c = '\t'
          · subst h4
            rw [show escapeChar '\t' = ['\\', 't'] from rfl]
            simp only [List.cons_append, List.nil_append]
            rw [parseStringBody.eq_def]
            simp [consRes, ih]
          · by_cases h5 : c = '\n'
            · subst h5
              rw [show escapeChar '\n' = ['\\', 'n'] from rfl]
              simp only [List.cons_append, List.nil_append]
              rw [parseStringBody.eq_def]
              simp [consRes, ih]
            · by_cases h6 : c = '\x0c'
              · subst h6
                rw [show escapeChar '\x0c' = ['\\', 'f'] from rfl]
                simp only [List.cons_append, List.nil_append]
                rw [parseStringBody.eq_def]
                simp [consRes, ih]
              · by_cases h7 : c = '\r'
                · subst h7
                  rw [show escapeChar '\r' = ['\\', 'r'] from rfl]
                  simp only [List.cons_append, List.nil_append]
                  rw [parseStringBody.eq_def]
                  simp [consRes, ih]
                · by_cases h8 : c.toNat < 32
                  · rw [show escapeChar c =
                        ['\\', 'u', '0', '0', hexDigit (c.toNat / 16), hexDigit (c.toNat % 16)] by
                        simp [escapeChar, h1, h2, h3, h4, h5, h6, h7, h8]]
                    have hvA := hexVal_hexDigit (c.toNat / 16) (by omega)
                    have hvB := hexVal_hexDigit (c.toNat % 16) (by omega)
                    simp only [List.cons_append, List.nil_append]
                    rw [parseStringBody.eq_def]
                    simp [hvA, hvB, consRes, ih, Char.ofNat_toNat,
                      show hexVal '0' = some 0 by decide,
                      show ((0 * 16 + 0) * 16 + c.toNat / 16) * 16 + c.toNat % 16 = c.toNat by
                        omega,
                      show c.toNat / 16 * 16 + c.toNat % 16 = c.toNat by omega]
                  · rw [show escapeChar c = [c] by
                        simp [escapeChar, h1, h2, h3, h4, h5, h6, h7, h8]]
                    simp only [List.cons_append, List.nil_append]
                    rw [parseStringBody.eq_def]
                    simp [h1, h2, consRes, ih]

theorem printVal_head (ind : Nat) (j : Json) :
    ∃ t, printVal ind j = '"' :: t ∨ printVal ind j = '[' :: t ∨ printVal ind j = '\x7b' :: t := by
  cases j with
  | str s => exact ⟨_, Or.inl rfl⟩
  | arr elems =>
    cases elems with
    | nil => exact ⟨_, Or.inr (Or.inl rfl)⟩
    | cons x xs => exact ⟨_, Or.inr (Or.inl rfl)⟩
  | obj fields =>
    cases fields with
    | nil => exact ⟨_, Or.inr (Or.inr rfl)⟩
    | cons f fs => exact ⟨_, Or.inr (Or.inr rfl)⟩

theorem skipWs_printVal (ind : Nat) (j : Json) (l : List Char) :
    skipWs (printVal ind j ++ l) = printVal ind j ++ l := by
  obtain ⟨t, h | h | h⟩ := printVal_head ind j <;>
    rw [h, List.cons_append] <;>
    exact skipWs_cons_not_ws _ (by decide)

theorem printItems_shape (ind : Nat) (x : Json) (xs : List Json) :
    ∃ t, printItems ind (x :: xs) = indentChars (ind + 1) ++ (printVal (ind + 1) x ++ t) := by
  cases xs with
  | nil => exact ⟨[], by simp [printItems]⟩
  | cons y ys => exact ⟨',' :: '\n' :: printItems ind (y :: ys), by simp [printItems]⟩

theorem printFields_shape (ind : Nat) (f : String × Json) (fs : List (String × Json)) :
    ∃ t, printFields ind (f :: fs) =
      indentChars (ind + 1) ++ ('"' :: (escapeList f.1.data ++ '"' :: ':' :: ' ' ::
        (printVal (ind + 1) f.2 ++ t))) := by
  obtain ⟨k, v⟩ := f
  cases fs with
  | nil => exact ⟨[], by simp [printFields]⟩
  | cons g gs => exact ⟨',' :: '\n' :: printFields ind (g :: gs), by simp [printFields]⟩

theorem jweight_pos (j : Json) : 1 ≤ jweight j := by
  cases j <;> simp [jweight]

theorem skipWs_idem (l : List Char) : skipWs (skipWs l) = skipWs l := by
  induction l with
  | nil => rfl
  | cons c l' ih =>
    cases h : isWs c with
    | true => rw [skipWs_cons_ws _ h, ih]
    | false => rw [skipWs_cons_not_ws _ h, skipWs_cons_not_ws _ h]

theorem parseValue_skipWs (f : Nat) (l : List Char) :
    parseValue f (skipWs l) = parseValue f l := by
  cases f with
  | zero => rfl
  | succ f => simp only [parseValue, skipWs_idem]

theorem parseFields_skipWs (f : Nat) (l : List Char) :
    parseFields f (skipWs l) = parseFields f l := by
  cases f with
  | zero => rfl
  | succ f => simp only [parseFields, skipWs_idem]

theorem parseValue_quote (f : Nat) (r : List Char) :
    parseValue (f + 1) ('"' :: r) =
      (parseStringBody r).map (fun p => (Json.str (String.mk p.1), p.2)) := rfl

theorem parseValue_lbracket (f : Nat) (r : List Char) :
    parseValue (f + 1) ('[' :: r) =
      match skipWs r with
      | [] => none
      | c2 :: r2 =>
        if c2 = ']' then some (Json.arr [], r2)
        else (parseItems f r).map (fun p => (Json.arr p.1, p.2)) := rfl

theorem parseValue_lbrace (f : Nat) (r : List Char) :
    parseValue (f + 1) ('\x7b' :: r) =
      match skipWs r with
      | [] => none
      | c2 :: r2 =>
        if c2 = '\x7d' then some (Json.obj [], r2)
        else (parseFields f r).map (fun p => (Json.obj p.1, p.2)) := rfl

theorem parseItems_succ (f : Nat) (l : List Char) :
    parseItems (f + 1) l =
      match parseValue f l with
      | none => none
      | some (j, r) =>
        match skipWs r with
        | [] => none
        | c :: r2 =>
          if c = ',' then (parseItems f r2).map (fun p => (j :: p.1, p.2))
          else if c = ']' then some ([j], r2)
          else none := rfl

theorem parseFields_quote (f : Nat) (r : List Char) :
    parseFields (f + 1) ('"' :: r) =
      match parseStringBody r with
      | none => none
      | some (k, r2) =>
        match skipWs r2 with
        | [] => none
        | c2 :: r3 =>
          if c2 = ':' then
            match parseValue f r3 with
            | none => none
            | some (v, r4) =>
              match skipWs r4 with
              | [] => none
              | c3 :: r5 =>
                if c3 = ',' then
                  (parseFields f r5).map (fun p => ((String.mk k, v) :: p.1, p.2))
                else if c3 = '\x7d' then some ([(String.mk k, v)], r5)
                else none
          else none := rfl

/-- Printer-parser round trip, all three syntactic classes at once, by
strong induction on the size of the printed value. -/
theorem parse_print_aux (n : Nat) :
    (∀ j : Json, sizeOf j ≤ n → ∀ (fuel ind : Nat) (rest : List Char), jweight j ≤ fuel →
      parseValue fuel (printVal ind j ++ rest) = some (j, rest)) ∧
    (∀ xs : List Json, sizeOf xs ≤ n → ∀ (fuel ind : Nat) (rest : List Char), xs ≠ [] →
      lweight xs ≤ fuel →
      parseItems fuel (printItems ind xs ++ '\n' :: (indentChars ind ++ ']' :: rest)) =
        some (xs, rest)) ∧
    (∀ fs : List (String × Json), sizeOf fs ≤ n → ∀ (fuel ind : Nat) (rest : List Char),
      fs ≠ [] → fweight fs ≤ fuel →
      parseFields fuel (printFields ind fs ++ '\n' :: (indentChars ind ++ '\x7d' :: rest)) =
        some (fs, rest)) := by
  induction n with
  | zero =>
    refine ⟨fun j hj => absurd hj (by cases j <;> simp),
            fun xs hx => absurd hx (by cases xs <;> simp),
            fun fs hfs => absurd hfs (by cases fs <;> simp)⟩
  | succ n ihn =>
    obtain ⟨ihV, ihI, ihF⟩ := ihn
    refine ⟨?_, ?_, ?_⟩
    · intro j hj fuel ind rest hf
      obtain ⟨f, rfl⟩ : ∃ f, fuel = f + 1 := ⟨fuel - 1, by have := jweight_pos j; omega⟩
      cases j with
      | str s =>
        rw [show printVal ind (Json.str s) = '"' :: (escapeList s.data ++ ['"']) from rfl]
        simp only [List.cons_append, List.append_assoc, List.nil_append]
        rw [parseValue_quote, parseStringBody_escape s.data rest]
        simp [string_mk_data]
      | arr elems =>
        cases elems with
        | nil =>
          rw [show printVal ind (Json.arr []) = ['[', ']'] from rfl]
          simp only [List.cons_append, List.nil_append]
          rw [parseValue_lbracket, skipWs_cons_not_ws _ (by decide)]
          simp
        | cons x xs =>
          rw [show printVal ind (Json.arr (x :: xs)) =
            '[' :: '\n' :: (printItems ind (x :: xs) ++ '\n' :: (indentChars ind ++ [']']))
            from rfl]
          simp only [List.cons_append, List.append_assoc, List.nil_append]
          rw [parseValue_lbracket]
          have hfx : jweight x ≤ f ∧ lweight (x :: xs) ≤ f := by
            simp only [jweight, lweight] at hf ⊢
            refine ⟨by omega, by omega⟩
          obtain ⟨t, hsh⟩ := printItems_shape ind x xs
          have hWS : parseItems f
              ('\n' :: (printItems ind (x :: xs) ++ '\n' :: (indentChars ind ++ ']' :: rest))) =
              parseItems f (printItems ind (x :: xs) ++ '\n' :: (indentChars ind ++ ']' :: rest)) :=
            parseItems_ws f ['\n'] _ (by intro c hc; simp at hc; subst hc; rfl)
          have hPI := ihI (x :: xs) (by simp at hj ⊢; omega) f ind rest (by simp) hfx.2
          rw [show skipWs ('\n' :: (printItems ind (x :: xs) ++ '\n' ::
              (indentChars ind ++ ']' :: rest))) =
              printVal (ind + 1) x ++ (t ++ '\n' :: (indentChars ind ++ ']' :: rest)) by
            rw [skipWs_cons_ws _ (by decide), hsh]
            simp only [List.append_assoc]
            rw [skipWs_append_ws _ _ (indentChars_all_ws _), skipWs_printVal]]
          obtain ⟨t0, hh | hh | hh⟩ := printVal_head (ind + 1) x <;>
            rw [hh, List.cons_append] <;>
            simp [hWS, hPI]
      | obj fields =>
        cases fields with
        | nil =>
          rw [show printVal ind (Json.obj []) = ['\x7b', '\x7d'] from rfl]
          simp only [List.cons_append, List.nil_append]
          rw [parseValue_lbrace, skipWs_cons_not_ws _ (by decide)]
          simp
        | cons g gs =>
          rw [show printVal ind (Json.obj (g :: gs)) =
            '\x7b' :: '\n' :: (printFields ind (g :: gs) ++ '\n' :: (indentChars ind ++ ['\x7d']))
            from rfl]
          simp only [List.cons_append, List.append_assoc, List.nil_append]
          rw [parseValue_lbrace]
          have hfx : fweight (g :: gs) ≤ f := by
            simp only [jweight] at hf
            omega
          have hWS : parseFields f
              ('\n' :: (printFields ind (g :: gs) ++ '\n' :: (indentChars ind ++ '\x7d' :: rest))) =
              parseFields f (printFields ind (g :: gs) ++ '\n' :: (indentChars ind ++ '\x7d' :: rest)) :=
            parseFields_ws f ['\n'] _ (by intro c hc; simp at hc; subst hc; rfl)
          have hPF := ihF (g :: gs) (by simp at hj ⊢; omega) f ind rest (by simp) hfx
          obtain ⟨t, hsh⟩ := printFields_shape ind g gs
          rw [show skipWs ('\n' :: (printFields ind (g :: gs) ++ '\n' ::
              (indentChars ind ++ '\x7d' :: rest))) =
              '"' :: ((escapeList g.1.data ++ '"' :: ':' :: ' ' ::
                (printVal (ind + 1) g.2 ++ t)) ++ '\n' :: (indentChars ind ++ '\x7d' :: rest)) by
            rw [skipWs_cons_ws _ (by decide), hsh]
            simp only [List.append_assoc]
            rw [skipWs_append_ws _ _ (indentChars_all_ws _), List.cons_append,
              skipWs_cons_not_ws _ (by decide)]
            simp [List.append_assoc]]
          simp [hWS, hPF]
    · intro xs hx fuel ind rest hne hf
      cases xs with
      | nil => exact absurd rfl hne
      | cons x xs' =>
      obtain ⟨f, rfl⟩ : ∃ f, fuel = f + 1 := ⟨fuel - 1, by simp [lweight] at hf; omega⟩
      have hfx : jweight x ≤ f := by simp [lweight] at hf; omega
      cases xs' with
      | nil =>
        rw [show printItems ind [x] = indentChars (ind + 1) ++ printVal (ind + 1) x from rfl]
        rw [parseItems_succ]
        simp only [List.append_assoc]
        have h1 : parseValue f (indentChars (ind + 1) ++
            (printVal (ind + 1) x ++ '\n' :: (indentChars ind ++ ']' :: rest))) =
            some (x, '\n' :: (indentChars ind ++ ']' :: rest)) := by
          rw [parseValue_ws f _ _ (indentChars_all_ws _)]
          exact ihV x (by simp at hx ⊢; omega) f (ind + 1) _ hfx
        rw [h1]
        have h2 : skipWs ('\n' :: (indentChars ind ++ ']' :: rest)) = ']' :: rest := by
          rw [skipWs_cons_ws _ (by decide), skipWs_append_ws _ _ (indentChars_all_ws _),
            skipWs_cons_not_ws _ (by decide)]
        simp [h2]
      | cons y ys =>
        rw [show printItems ind (x :: y :: ys) = indentChars (ind + 1) ++
            (printVal (ind + 1) x ++ ',' :: '\n' :: printItems ind (y :: ys)) from rfl]
        rw [parseItems_succ]
        simp only [List.append_assoc, List.cons_append]
        have h1 : parseValue f (indentChars (ind + 1) ++
            (printVal (ind + 1) x ++ ',' :: '\n' ::
              (printItems ind (y :: ys) ++ '\n' :: (indentChars ind ++ ']' :: rest)))) =
            some (x, ',' :: '\n' ::
              (printItems ind (y :: ys) ++ '\n' :: (indentChars ind ++ ']' :: rest))) := by
          rw [parseValue_ws f _ _ (indentChars_all_ws _)]
          exact ihV x (by simp at hx ⊢; omega) f (ind + 1) _ hfx
        rw [h1]
        have hWS : parseItems f
            ('\n' :: (printItems ind (y :: ys) ++ '\n' :: (indentChars ind ++ ']' :: rest))) =
            parseItems f (printItems ind (y :: ys) ++ '\n' :: (indentChars ind ++ ']' :: rest)) :=
          parseItems_ws f ['\n'] _ (by intro c hc; simp at hc; subst hc; rfl)
        have hPI := ihI (y :: ys) (by simp at hx ⊢; omega) f ind rest (by simp)
          (by simp [lweight] at hf ⊢; omega)
        simp [hWS, hPI, skipWs_cons_not_ws, isWs]
    · intro fs hfs fuel ind rest hne hf
      cases fs with
      | nil => exact absurd rfl hne
      | cons g gs =>
      obtain ⟨k, v⟩ := g
      obtain ⟨f, rfl⟩ : ∃ f, fuel = f + 1 := ⟨fuel - 1, by simp [fweight] at hf; omega⟩
      have hfv : jweight v ≤ f := by simp [fweight] at hf; omega
      cases gs with
      | nil =>
        rw [show printFields ind [(k, v)] = indentChars (ind + 1) ++
            ('"' :: (escapeList k.data ++ '"' :: ':' :: ' ' :: printVal (ind + 1) v)) from rfl]
        simp only [List.append_assoc, List.cons_append]
        rw [← parseFields_skipWs (f + 1),
          skipWs_append_ws _ _ (indentChars_all_ws _), skipWs_cons_not_ws _ (by decide),
          parseFields_quote, parseStringBody_escape k.data]
        have h1 : parseValue f (' ' ::
            (printVal (ind + 1) v ++ '\n' :: (indentChars ind ++ '\x7d' :: rest))) =
            some (v, '\n' :: (indentChars ind ++ '\x7d' :: rest)) := by
          rw [show (' ' :: (printVal (ind + 1) v ++ '\n' :: (indentChars ind ++ '\x7d' :: rest))) =
              [' '] ++ (printVal (ind + 1) v ++ '\n' :: (indentChars ind ++ '\x7d' :: rest)) from rfl]
          rw [parseValue_ws f [' '] _ (by intro c hc; simp at hc; subst hc; rfl)]
          exact ihV v (by simp at hfs ⊢; omega) f (ind + 1) _ hfv
        have h2 : skipWs ('\n' :: (indentChars ind ++ '\x7d' :: rest)) = '\x7d' :: rest := by
          rw [skipWs_cons_ws _ (by decide), skipWs_append_ws _ _ (indentChars_all_ws _),
            skipWs_cons_not_ws _ (by decide)]
        simp [h1, h2, string_mk_data, skipWs_cons_not_ws, isWs]
      | cons g2 gs2 =>
        rw [show printFields ind ((k, v) :: g2 :: gs2) = indentChars (ind + 1) ++
            ('"' :: (escapeList k.data ++ '"' :: ':' :: ' ' ::
              (printVal (ind + 1) v ++ ',' :: '\n' :: printFields ind (g2 :: gs2)))) from rfl]
        simp only [List.append_assoc, List.cons_append]
        rw [← parseFields_skipWs (f + 1),
          skipWs_append_ws _ _ (indentChars_all_ws _), skipWs_cons_not_ws _ (by decide),
          parseFields_quote, parseStringBody_escape k.data]
        have h1 : parseValue f (' ' ::
            (printVal (ind + 1) v ++ ',' :: '\n' ::
              (printFields ind (g2 :: gs2) ++ '\n' :: (indentChars ind ++ '\x7d' :: rest)))) =
            some (v, ',' :: '\n' ::
              (printFields ind (g2 :: gs2) ++ '\n' :: (indentChars ind ++ '\x7d' :: rest))) := by
          rw [show (' ' :: (printVal (ind + 1) v ++ ',' :: '\n' ::
              (printFields ind (g2 :: gs2) ++ '\n' :: (indentChars ind ++ '\x7d' :: rest)))) =
              [' '] ++ (printVal (ind + 1) v ++ ',' :: '\n' ::
                (printFields ind (g2 :: gs2) ++ '\n' :: (indentChars ind ++ '\x7d' :: rest)))
            from rfl]
          rw [parseValue_ws f [' '] _ (by intro c hc; simp at hc; subst hc; rfl)]
          exact ihV v (by simp at hfs ⊢; omega) f (ind + 1) _ hfv
        have hWS : parseFields f
            ('\n' :: (printFields ind (g2 :: gs2) ++ '\n' :: (indentChars ind ++ '\x7d' :: rest))) =
            parseFields f (printFields ind (g2 :: gs2) ++ '\n' :: (indentChars ind ++ '\x7d' :: rest)) :=
          parseFields_ws f ['\n'] _ (by intro c hc; simp at hc; subst hc; rfl)
        have hPF := ihF (g2 :: gs2) (by simp at hfs ⊢; omega) f ind rest (by simp)
          (by simp [fweight] at hf ⊢; omega)
        simp [h1, hWS, hPF, string_mk_data, skipWs_cons_not_ws, isWs]

/-- Parsing the printed form of a value recovers it. -/
theorem parseValue_print (j : Json) (fuel ind : Nat) (rest : List Char)
    (hf : jweight j ≤ fuel) :
    parseValue fuel (printVal ind j ++ rest) = some (j, rest) :=
  (parse_print_aux (sizeOf j)).1 j le_rfl fuel ind rest hf

/-- The parser fuel weight is bounded by the printed length (plus one), for
all three syntactic classes, by strong induction on size. -/
theorem weight_le_length_aux (n : Nat) :
    (∀ j : Json, sizeOf j ≤ n → ∀ ind : Nat, jweight j ≤ (printVal ind j).length + 1) ∧
    (∀ xs : List Json, sizeOf xs ≤ n → ∀ ind : Nat,
      lweight xs ≤ (printItems ind xs).length + 2) ∧
    (∀ fs : List (String × Json), sizeOf fs ≤ n → ∀ ind : Nat,
      fweight fs ≤ (printFields ind fs).length + 2) := by
  induction n with
  | zero =>
    refine ⟨fun j hj => absurd hj (by cases j <;> simp),
            fun xs hx => absurd hx (by cases xs <;> simp),
            fun fs hfs => absurd hfs (by cases fs <;> simp)⟩
  | succ n ihn =>
    obtain ⟨ihV, ihI, ihF⟩ := ihn
    refine ⟨?_, ?_, ?_⟩
    · intro j hj ind
      cases j with
      | str s => simp [jweight, printVal]
      | arr elems =>
        cases elems with
        | nil => simp [jweight, lweight, printVal]
        | cons x xs =>
          have hI := ihI (x :: xs) (by simp at hj ⊢; omega) ind
          rw [show printVal ind (Json.arr (x :: xs)) =
            '[' :: '\n' :: (printItems ind (x :: xs) ++ '\n' :: (indentChars ind ++ [']']))
            from rfl]
          simp only [jweight, List.length_cons, List.length_append, indentChars,
            List.length_replicate, List.length_nil]
          omega
      | obj fields =>
        cases fields with
        | nil => simp [jweight, fweight, printVal]
        | cons g gs =>
          have hF := ihF (g :: gs) (by simp at hj ⊢; omega) ind
          rw [show printVal ind (Json.obj (g :: gs)) =
            '\x7b' :: '\n' :: (printFields ind (g :: gs) ++ '\n' :: (indentChars ind ++ ['\x7d']))
            from rfl]
          simp only [jweight, List.length_cons, List.length_append, indentChars,
            List.length_replicate, List.length_nil]
          omega
    · intro xs hx ind
      cases xs with
      | nil => simp [lweight, printItems]
      | cons x xs' =>
        cases xs' with
        | nil =>
          have hV := ihV x (by simp at hx ⊢; omega) (ind + 1)
          rw [show printItems ind [x] = indentChars (ind + 1) ++ printVal (ind + 1) x from rfl]
          simp only [lweight, List.length_append, indentChars, List.length_replicate]
          omega
        | cons y ys =>
          have hV := ihV x (by simp at hx ⊢; omega) (ind + 1)
          have hI := ihI (y :: ys) (by simp at hx ⊢; omega) ind
          rw [show printItems ind (x :: y :: ys) = indentChars (ind + 1) ++
            (printVal (ind + 1) x ++ ',' :: '\n' :: printItems ind (y :: ys)) from rfl]
          simp only [lweight, List.length_append, List.length_cons, indentChars,
            List.length_replicate] at hI ⊢
          omega
    · intro fs hfs ind
      cases fs with
      | nil => simp [fweight, printFields]
      | cons g gs =>
        obtain ⟨k, v⟩ := g
        cases gs with
        | nil =>
          have hV := ihV v (by simp at hfs ⊢; omega) (ind + 1)
          rw [show printFields ind [(k, v)] = indentChars (ind + 1) ++
            ('"' :: (escapeList k.data ++ '"' :: ':' :: ' ' :: printVal (ind + 1) v)) from rfl]
          simp only [fweight, List.length_append, List.length_cons, indentChars,
            List.length_replicate]
          omega
        | cons g2 gs2 =>
          have hV := ihV v (by simp at hfs ⊢; omega) (ind + 1)
          have hF := ihF (g2 :: gs2) (by simp at hfs ⊢; omega) ind
          rw [show printFields ind ((k, v) :: g2 :: gs2) = indentChars (ind + 1) ++
            ('"' :: (escapeList k.data ++ '"' :: ':' :: ' ' ::
              (printVal (ind + 1) v ++ ',' :: '\n' :: printFields ind (g2 :: gs2)))) from rfl]
          simp only [fweight, List.length_append, List.length_cons, indentChars,
            List.length_replicate] at hF ⊢
          omega

/-- The `JSON.parse` inverts `JSON.stringify(·, null, 2)` on the document
fragment. -/
theorem jsonParse_stringify2 (j : Json) : jsonParse (stringify2 j) = some j := by
  unfold jsonParse stringify2
  rw [show (String.mk (printVal 0 j)).data = printVal 0 j from rfl]
  have h := parseValue_print j ((printVal 0 j).length + 1) 0 []
    ((weight_le_length_aux (sizeOf j)).1 j le_rfl 0)
  rw [List.append_nil] at h
  rw [h]
  rfl


end JsonLemmas

/-! ## Claims -/

/-- C1: Write-then-read.  For every model, catalog name `c`, package `p` and
version `v`, `setPackage m c p v` (which is exactly `setCatalogVersion`)
followed by `getCatalogVersion c p` returns `v`, whether or not the catalog
or package existed beforehand (parent structures are auto-created). -/
theorem claim_C1 (m : Model) (c p v : String) :
    setPackage m c p v = setCatalogVersion m c p v ∧
    getCatalogVersion (setPackage m c p v) c p = some v :=
  ⟨rfl, getCatalogVersion_setCatalogVersion_self m c p v⟩

/-- C2: Change-flag lifecycle.  `hasChanged` is `false` right after parse; a
read leaves the model (hence the flag) unchanged; `setContent` and
`setPackage` always set it; `createCatalog` and `removeCatalog` set it
whenever they actually change the document; and no operation sequence ever
resets it to `false`. -/
theorem claim_C2 (c doc : Config) (m : Model) (n cn p v : String) (o : Op)
    (ops : List Op) :
    (parseBunWorkspace c).hasChanged = false ∧
    (o.isRead = true → applyOp m o = m) ∧
    (setContent m doc).hasChanged = true ∧
    (setPackage m cn p v).hasChanged = true ∧
    ((createCatalog m n).config ≠ m.config → (createCatalog m n).hasChanged = true) ∧
    ((removeCatalog m n).config ≠ m.config → (removeCatalog m n).hasChanged = true) ∧
    (m.hasChanged = true → (applyOps m ops).hasChanged = true) := by
  refine ⟨rfl, ?_, rfl, hasChanged_setCatalogVersion m cn p v, ?_, ?_, ?_⟩
  · intro hr
    cases o <;> first | rfl | simp [Op.isRead] at hr
  · intro hne
    rcases createCatalog_eq_or_changed m n with he | hc
    · exact absurd (congrArg Model.config he) hne
    · exact hc
  · intro hne
    rcases removeCatalog_eq_or_changed m n with he | hc
    · exact absurd (congrArg Model.config he) hne
    · exact hc
  · exact hasChanged_applyOps_mono ops m

/-- C2 witness: the hypotheses of the conditional conjuncts discharged at
concrete inputs — a read is inert, a creating `createCatalog`, a removing
`removeCatalog` and any successor of a changed model report `true`. -/
theorem claim_C2_witness :
    applyOp { config := { workspaces := some {} }, hasChanged := false } Op.listCatalogs =
      { config := { workspaces := some {} }, hasChanged := false } ∧
    (createCatalog { config := { workspaces := some {} }, hasChanged := false } "a").hasChanged = true ∧
    (removeCatalog { config := { workspaces := some { catalog := some [] } }, hasChanged := false }
      "default").hasChanged = true ∧
    (applyOps { config := { workspaces := none }, hasChanged := true }
      [Op.listCatalogs]).hasChanged = true :=
  ⟨(claim_C2 { workspaces := none } { workspaces := none }
      { config := { workspaces := some {} }, hasChanged := false }
      "a" "a" "p" "v" Op.listCatalogs []).2.1 (by decide),
   (claim_C2 { workspaces := none } { workspaces := none }
      { config := { workspaces := some {} }, hasChanged := false }
      "a" "a" "p" "v" Op.listCatalogs []).2.2.2.2.1 (by decide),
   (claim_C2 { workspaces := none } { workspaces := none }
      { config := { workspaces := some { catalog := some [] } }, hasChanged := false }
      "default" "a" "p" "v" Op.listCatalogs []).2.2.2.2.2.1 (by decide),
   (claim_C2 { workspaces := none } { workspaces := none }
      { config := { workspaces := none }, hasChanged := true }
      "a" "a" "p" "v" Op.listCatalogs [Op.listCatalogs]).2.2.2.2.2.2 (by decide)⟩

/-- C3: `getPackageCatalogs` membership and order.  For every model
satisfying the data-model invariant (no `"default"` key inside `catalogs`),
the result is exactly the named catalogs containing the package — in the
container's iteration order, containment being the code's truthy version
test — followed by `"default"` iff the default catalog contains it; in
particular `"default"`, when present, is always last. -/
theorem claim_C3 (m : Model) (p : String) (hInv : NoDefaultKey m) :
    getPackageCatalogs m p =
      ((namedCatalogKeys m).filter
        (fun n => jsTruthy ((getKey ((namedSlot m).getD []) n).bind (fun cat => getKey cat p)))) ++
      (if jsTruthy ((defaultSlot m).bind (fun cat => getKey cat p)) then ["default"] else []) ∧
    ("default" ∈ getPackageCatalogs m p →
      ∃ l, getPackageCatalogs m p = l ++ ["default"] ∧ "default" ∉ l) := by
  refine ⟨getPackageCatalogs_eq_filter m p, ?_⟩
  intro hmem
  rw [getPackageCatalogs_eq_filter m p] at hmem ⊢
  have hnl : "default" ∉ (namedCatalogKeys m).filter
      (fun n => jsTruthy ((getKey ((namedSlot m).getD []) n).bind (fun cat => getKey cat p))) :=
    fun hin => hInv (List.mem_of_mem_filter hin)
  rcases List.mem_append.mp hmem with hl | hr
  · exact absurd hl hnl
  · have hif : jsTruthy ((defaultSlot m).bind (fun cat => getKey cat p)) = true := by
      by_contra hfalse
      simp only [Bool.not_eq_true] at hfalse
      simp [hfalse] at hr
    exact ⟨_, by rw [hif]; simp, hnl⟩

/-- C3 witness: the spec's own example — default catalog `{react}` and named
catalogs `react18`, `react19` in insertion order — instantiating the
characterization at a concrete model. -/
theorem claim_C3_witness :
    getPackageCatalogs
      { config := { workspaces := some {
          catalog := some [("react", "^18.2.0")],
          catalogs := some [("react18", [("react", "^18.2.0")]),
                            ("react19", [("react", "^19.0.0")])] } },
        hasChanged := false } "react" = ["react18", "react19", "default"] := by
  have h := (claim_C3
    { config := { workspaces := some {
        catalog := some [("react", "^18.2.0")],
        catalogs := some [("react18", [("react", "^18.2.0")]),
                          ("react19", [("react", "^19.0.0")])] } },
      hasChanged := false } "react" (by decide)).1
  rw [h]
  decide

/-- C4: Miss conventions.  A missing catalog yields `none` from
`getCatalogVersion` and `{}` from `getCatalogPackages`; a missing package
yields `none`; `getCatalogVersion` is exactly the lookup in
`getCatalogPackages`; and both reads leave the model untouched (they are
total functions of it). -/
theorem claim_C4 (m : Model) (c p : String) :
    (catalogExists m c = false →
      getCatalogVersion m c p = none ∧ getCatalogPackages m c = []) ∧
    getCatalogVersion m c p = getKey (getCatalogPackages m c) p ∧
    (getKey (getCatalogPackages m c) p = none → getCatalogVersion m c p = none) ∧
    applyOp m (Op.getCatalogVersion c p) = m ∧
    applyOp m (Op.getCatalogPackages c) = m := by
  refine ⟨fun h => lookups_of_not_exists m p h, getCatalogVersion_eq_getKey m c p, ?_, rfl, rfl⟩
  intro h
  rw [getCatalogVersion_eq_getKey m c p, h]

/-- C4 witness: names never seen before on an empty document. -/
theorem claim_C4_witness :
    getCatalogVersion { config := { workspaces := none }, hasChanged := false } "never" "seen" = none ∧
    getCatalogPackages { config := { workspaces := none }, hasChanged := false } "never" = [] :=
  ⟨((claim_C4 { config := { workspaces := none }, hasChanged := false } "never" "seen").1
      (by decide)).1,
   ((claim_C4 { config := { workspaces := none }, hasChanged := false } "never" "seen").1
      (by decide)).2⟩

/-- C5: `createCatalog` idempotence.  Calling it twice equals calling it once
(on the whole model, hence on `listCatalogs` and `hasChanged`), and calling
it on an existing catalog (empty or not) changes neither document nor
flag. -/
theorem claim_C5 (m : Model) (n : String) :
    createCatalog (createCatalog m n) n = createCatalog m n ∧
    listCatalogs (createCatalog (createCatalog m n) n) = listCatalogs (createCatalog m n) ∧
    (createCatalog (createCatalog m n) n).hasChanged = (createCatalog m n).hasChanged ∧
    (catalogExists m n = true → createCatalog m n = m) := by
  have hid : createCatalog (createCatalog m n) n = createCatalog m n :=
    createCatalog_exists_eq (createCatalog m n) (catalogExists_createCatalog_self m n)
  exact ⟨hid, by rw [hid], by rw [hid], fun h => createCatalog_exists_eq m h⟩

/-- C5 witness: the no-op conjunct discharged on a model that already has an
empty named catalog `"a"` and a non-empty default catalog. -/
theorem claim_C5_witness :
    createCatalog { config := { workspaces := some {
        catalog := some [("react", "^18.2.0")],
        catalogs := some [("a", [])] } }, hasChanged := false } "a" =
      { config := { workspaces := some {
          catalog := some [("react", "^18.2.0")],
          catalogs := some [("a", [])] } }, hasChanged := false } :=
  (claim_C5 { config := { workspaces := some {
      catalog := some [("react", "^18.2.0")],
      catalogs := some [("a", [])] } }, hasChanged := false } "a").2.2.2 (by decide)

/-- C6: `removeCatalog` frame.  On a missing catalog it is the identity on
the whole model (document and flag untouched); on an existing catalog it
deletes the key — the catalog no longer exists afterwards — and sets the
flag. -/
theorem claim_C6 (m : Model) (n : String) :
    (catalogExists m n = false → removeCatalog m n = m) ∧
    (catalogExists m n = true →
      (removeCatalog m n).hasChanged = true ∧
      catalogExists (removeCatalog m n) n = false) := by
  exact ⟨fun h => removeCatalog_eq_of_not_exists m h, fun h => removeCatalog_exists m h⟩

/-- C6 witness: a missing named catalog is a strict no-op; removing the
existing default catalog deletes it and marks the change. -/
theorem claim_C6_witness :
    removeCatalog { config := { workspaces := some { catalog := some [] } }, hasChanged := false }
        "missing" =
      { config := { workspaces := some { catalog := some [] } }, hasChanged := false } ∧
    (removeCatalog { config := { workspaces := some { catalog := some [] } }, hasChanged := false }
        "default").hasChanged = true :=
  ⟨(claim_C6 { config := { workspaces := some { catalog := some [] } }, hasChanged := false }
      "missing").1 (by decide),
   ((claim_C6 { config := { workspaces := some { catalog := some [] } }, hasChanged := false }
      "default").2 (by decide)).1⟩

/-- C7: `listCatalogs` order and membership.  `"default"` comes first, iff
the `workspaces.catalog` slot exists (even empty), followed by the
`workspaces.catalogs` keys in iteration order (empty catalogs included); and
under the data-model invariants (unique keys, no `"default"` key in
`catalogs`) no name is listed twice. -/
theorem claim_C7 (m : Model) (hw : WellFormed m) (hInv : NoDefaultKey m) :
    listCatalogs m =
      (if (defaultSlot m).isSome then ["default"] else []) ++ namedCatalogKeys m ∧
    (listCatalogs m).Nodup := by
  refine ⟨listCatalogs_eq m, ?_⟩
  rw [listCatalogs_eq m]
  by_cases h : (defaultSlot m).isSome
  · rw [if_pos h]
    refine List.Nodup.append (by simp) hw ?_
    intro a ha hb
    simp only [List.mem_singleton] at ha
    exact hInv (ha ▸ hb)
  · rw [if_neg h]
    simpa using hw

/-- C7 witness: a document with an empty default catalog and two named
catalogs (one empty) — listed as `default` first then insertion order. -/
theorem claim_C7_witness :
    listCatalogs { config := { workspaces := some {
        catalog := some [],
        catalogs := some [("b", [("x", "1")]), ("a", [])] } }, hasChanged := false } =
      ["default", "b", "a"] := by
  have h := (claim_C7 { config := { workspaces := some {
      catalog := some [],
      catalogs := some [("b", [("x", "1")]), ("a", [])] } }, hasChanged := false }
    (by decide) (by decide)).1
  rw [h]
  decide

/-- C8: Default-catalog duality.  Starting from any document whose
`catalogs` container has no `"default"` key, no sequence of operations other
than `setContent` ever introduces one: the default catalog only ever lives
in `workspaces.catalog`. -/
theorem claim_C8 (m : Model) (ops : List Op)
    (hops : ∀ o ∈ ops, o.isSetContent = false) (h : NoDefaultKey m) :
    NoDefaultKey (applyOps m ops) := by
  induction ops generalizing m with
  | nil => exact h
  | cons o rest ih =>
    exact ih (applyOp m o)
      (fun o' ho' => hops o' (List.mem_cons_of_mem o ho'))
      (noDefaultKey_applyOp m o (hops o (List.mem_cons_self o rest)) h)

/-- C8 witness: a mixed concrete trace — writes into the default and a named
catalog, a creation and a removal — never materializes `catalogs["default"]`. -/
theorem claim_C8_witness :
    NoDefaultKey (applyOps { config := { workspaces := some {} }, hasChanged := false }
      [Op.setPackage "default" "react" "^18.2.0", Op.setPackage "a" "p" "1",
       Op.createCatalog "b", Op.removeCatalog "a", Op.getPackageCatalogs "p"]) :=
  claim_C8 { config := { workspaces := some {} }, hasChanged := false }
    [Op.setPackage "default" "react" "^18.2.0", Op.setPackage "a" "p" "1",
     Op.createCatalog "b", Op.removeCatalog "a", Op.getPackageCatalogs "p"]
    (by decide) (by decide)

/-- C9: Serialization round trip.  For every string `S` that parses as a
valid configuration document with logical value `j`, the freshly parsed,
unmutated model's `toString` is exactly the 2-space pretty-printing of `j`,
and re-parsing that output yields the same logical value as re-parsing `S`
(structural equality, not byte identity with `S`). -/
theorem claim_C9 (S : String) (j : Json) (hparse : jsonParse S = some j)
    (hvalid : isConfigDoc j = true) :
    (parseRaw j).toStr = stringify2 j ∧
    jsonParse ((parseRaw j).toStr) = jsonParse S := by
  refine ⟨rfl, ?_⟩
  rw [show (parseRaw j).toStr = stringify2 j from rfl, jsonParse_stringify2 j, hparse]

/-- C9 witness: the two-line document `\x7b"workspaces": \x7b\x7d\x7d` (written here with
escaped braces) parsed, printed and re-parsed. -/
theorem claim_C9_witness :
    (parseRaw (Json.obj [("workspaces", Json.obj [])])).toStr =
      stringify2 (Json.obj [("workspaces", Json.obj [])]) ∧
    jsonParse ((parseRaw (Json.obj [("workspaces", Json.obj [])])).toStr) =
      jsonParse "\x7b\"workspaces\": \x7b\x7d\x7d" :=
  claim_C9 "\x7b\"workspaces\": \x7b\x7d\x7d" (Json.obj [("workspaces", Json.obj [])])
    (by rfl) (by rfl)

/-- C10: Empty-string versions are invisible to containment.  After
`setPackage c p ""` (on a model satisfying the no-`"default"`-key
invariant), `getPackageCatalogs p` does not list `c`, although
`getCatalogVersion c p` returns `""`: the membership test is truthiness of
the stored value, not key presence. -/
theorem claim_C10 (m : Model) (c p : String) (hInv : NoDefaultKey m) :
    c ∉ getPackageCatalogs (setPackage m c p "") p ∧
    getCatalogVersion (setPackage m c p "") c p = some "" := by
  refine ⟨?_, getCatalogVersion_setCatalogVersion_self m c p ""⟩
  intro hmem
  rw [show setPackage m c p "" = setCatalogVersion m c p "" from rfl,
    getPackageCatalogs_eq_filter] at hmem
  rcases List.mem_append.mp hmem with hl | hr
  · by_cases hd : c = "default"
    · subst hd
      have hkeys := List.mem_of_mem_filter hl
      rw [namedCatalogKeys_setCatalogVersion_default] at hkeys
      exact hInv hkeys
    · have htest := List.of_mem_filter hl
      rw [namedSlot_setCatalogVersion_named m p "" hd] at htest
      simp [jsTruthy, getKey_setKey_self] at htest
  · split at hr
    next hcond =>
      simp only [List.mem_singleton] at hr
      subst hr
      rw [defaultSlot_setCatalogVersion_default] at hcond
      simp [jsTruthy, getKey_setKey_self] at hcond
    next => simp at hr

/-- C10 witness: writing `""` for a fresh package into a fresh named catalog
hides it from `getPackageCatalogs` while `getCatalogVersion` returns `""`. -/
theorem claim_C10_witness :
    "a" ∉ getPackageCatalogs
      (setPackage { config := { workspaces := some {} }, hasChanged := false } "a" "p" "") "p" ∧
    getCatalogVersion
      (setPackage { config := { workspaces := some {} }, hasChanged := false } "a" "p" "")
      "a" "p" = some "" :=
  claim_C10 { config := { workspaces := some {} }, hasChanged := false } "a" "p" (by decide)

end BunWorkspace
